import Mathlib

set_option maxRecDepth 40000

/-!
Shallow embedding of the `ffxiv_pyramid` package (data.py, model.py,
generator.py, io.py) and proofs of the specification claims about it.

Machine integers are modelled as `Nat`/`Int`; the pseudo-random stream,
timestamps and string formatting from the Python standard library are
modelled explicitly below.  Fallible code returns `Except`; the
collision-avoidance loop of the generator, which the source runs without
bound, is given an explicit fuel parameter (`none` = the loop was still
running after `fuel` draws).
-/

namespace EFL

/-! ## JSON-like values and Python dicts (used for `Pyramid.meta`)

`meta` is a Python `dict[str, Any]`.  The values the repository itself ever
stores in it are strings, integers, `None`, lists of integers and lists of
strings; `Jval` is that value universe.  A dict is an insertion-ordered
association list, as in Python. -/

inductive Jval where
  | null
  | int (i : Int)
  | str (s : String)
  | intList (l : List Int)
  | strList (l : List String)
deriving DecidableEq, Repr

abbrev Dict : Type := List (String × Jval)

def dictKeys (d : Dict) : List String := d.map Prod.fst

def dictFind : Dict → String → Option Jval
  | [], _ => none
  | (k', v) :: rest, k => if k' = k then some v else dictFind rest k

/-- One step of Python `dict.update`: assigning `d[k] = v` keeps the position
of an existing key and appends a fresh key at the end. -/
def dictSet : Dict → String → Jval → Dict
  | [], k, v => [(k, v)]
  | (k', v') :: rest, k, v =>
    if k' = k then (k, v) :: rest else (k', v') :: dictSet rest k v

/-- Python `d.update(e)`: entries of `e` are assigned in order. -/
def dictUpdate : Dict → Dict → Dict
  | d, [] => d
  | d, (k, v) :: e => dictUpdate (dictSet d k v) e

/-! ## Theme registry (`data.py`)

`Theme.shortPrefix` embeds the Python field `short_prefix`. -/

structure Theme where
  key : String
  region_name : String
  shortPrefix : String
  premier_title : String
  championship_title : String
  lower_division_title : String
  highlight : String
  locations : List String
  mascots : List String
  adjectives : List String
  inspirations : List String
  notes_templates : List String
deriving DecidableEq, Repr

def eorzeaTheme : Theme :=
  { key := "eorzea"
    region_name := "Eorzean"
    shortPrefix := "EFL"
    premier_title := "Eorzean Premier League"
    championship_title := "Grand Company Championship"
    lower_division_title := "City-State Division"
    highlight := "The heart of the realm where Gridania, Limsa Lominsa, Ul'dah, and Ishgard compete."
    locations := ["Gridania", "Limsa Lominsa", "Ul'dah", "Ishgard", "Sharlayan", "Radz-at-Han",
      "Mor Dhona", "La Noscea", "Coerthas", "Thanalan", "The Dravanian Forelands", "Lakeland",
      "Thavnair", "Old Sharlayan", "Labyrinthos", "Kugane", "Idyllshire", "Garlemald Reclaimed",
      "The Crystarium", "Old Gridania"]
    mascots := ["Scions", "Seedseers", "Maelstrom", "Immortals", "Temple Knights", "Astrologians",
      "Nald'thal", "Azure Drakes", "Carbuncle", "Chocobos", "Free Paladins", "Gobwalkers",
      "Sky Pirates", "Radiant Dawn", "House Fortemps", "Conjurers", "Adders", "Flames",
      "Blades", "Dragoons"]
    adjectives := ["Twin", "Rising", "Mythril", "Heavensward", "Stormborn", "Starlit", "Ruby",
      "Umbral", "Astral", "Azure", "Verdant", "Gilded", "Crystalline", "Eternal", "Radiant"]
    inspirations := ["Scions of the Seventh Dawn", "Order of the Twin Adder", "Immortal Flames",
      "Maelstrom", "Temple Knights", "Ishgardian Restoration", "Crystarium Guard",
      "Students of Baldesion", "Radz-at-Han alchemists", "Sharlayan Forum", "Bozjan Resistance"]
    notes_templates := ["Backed by the {inspiration} from {location}.",
      "Founded by veterans of the {inspiration}.",
      "Club culture steeped in {inspiration} tradition.",
      "Hails from {location} with {inspiration} influence."] }

def farEastTheme : Theme :=
  { key := "far_east"
    region_name := "Far Eastern"
    shortPrefix := "FEF"
    premier_title := "Kugane Premier Division"
    championship_title := "Hingan Championship"
    lower_division_title := "Eastern League"
    highlight := "The trading ports of Kugane, the rebel lands of Doma, and the wandering Steppe tribes collide."
    locations := ["Kugane", "Doma", "Yanxia", "The Azim Steppe", "Hingashi", "Sui-no-Sato",
      "The Ruby Sea", "Isari", "Namai", "Tsurumi", "Shisui of the Violet Tides", "Reunion",
      "Tamamizu", "Shirogane", "Onokoro", "Seigetsu"]
    mascots := ["Sekiseigumi", "Raen", "Xaela", "Ruby Ronin", "Steppe Riders", "Doman Clans",
      "Geiko", "Raijin", "Komainu", "Crimson Lancers", "Blue Oni", "Sea Wolves", "Tengu",
      "Moonlit Ronin", "Skyfarers"]
    adjectives := ["Blossom", "Moonlit", "Stormjade", "Tempest", "Crimson", "Azure", "Sakura",
      "Silver", "Verdant", "Dragon"]
    inspirations := ["Sekiseigumi", "House of the Fierce", "Confederacy", "Doman Liberation Front",
      "Mol Warriors", "Seiryu Temple", "Tales of the Ruby Princess"]
    notes_templates := ["Backed by the {inspiration} from {location}.",
      "Combines tactics from the {inspiration} with Far Eastern flair.",
      "Favoured by sailors of the {inspiration}."] }

def garlemaldTheme : Theme :=
  { key := "garlemald"
    region_name := "Imperial"
    shortPrefix := "IGL"
    premier_title := "Imperial Supremacy League"
    championship_title := "Praetoriate Championship"
    lower_division_title := "Legion Divisions"
    highlight := "Reformed Garlean legions and liberated provinces contest the imperial title."
    locations := ["Garlemald", "Bozja", "Werlyt", "Dalmasca", "Ala Mhigo", "Terncliff",
      "Paglth'an", "Corvos", "Iskaal", "Locus Amoenus", "Porta Praetoria", "Tertium", "Zadnor"]
    mascots := ["Magitek", "Legati", "Centurions", "Ceruleum", "Gunblades", "Dreadnaughts",
      "Praetorians", "Machina", "Imperial Fangs", "Ala Mhigan Shields", "Resistance"]
    adjectives := ["Adamant", "Iron", "Cerulean", "Imperial", "Reborn", "Resolute", "Steel",
      "Vanguard"]
    inspirations := ["IVth Legion", "Bozjan Resistance", "Werlyt Rebellion", "Dalmascan Royalists",
      "Ala Mhigan Monks", "Corvos Insurgents"]
    notes_templates := ["Former {inspiration} unit now focused on footballing glory.",
      "Uses magitek support from {location}.",
      "Celebrates {inspiration} heritage in every match."] }

/-- The `THEMES` table; its insertion order (eorzea, far_east, garlemald) is
already sorted, so `", ".join(sorted(THEMES))` enumerates it in this order. -/
def THEMES : List (String × Theme) :=
  [("eorzea", eorzeaTheme), ("far_east", farEastTheme), ("garlemald", garlemaldTheme)]

/-- Error taxonomy of the package: `ValueError` / `KeyError` /
`FileNotFoundError` / malformed documents raised by the Python code. -/
inductive GenErr where
  | invalidInput (msg : String)
  | notFound (msg : String)
  | malformed (msg : String)
deriving DecidableEq, Repr

/-- `key.lower().replace("-", "_")` from `get_theme`, as one pass over the
characters (lowercasing never produces a hyphen). -/
def normalizeThemeKey (key : String) : String :=
  String.mk (key.data.map (fun c => if Char.toLower c = '-' then '_' else Char.toLower c))

def lookupTheme : List (String × Theme) → String → Option Theme
  | [], _ => none
  | (k, t) :: rest, key => if k = key then some t else lookupTheme rest key

/-- `get_theme` from `data.py`: normalize the key, raise `KeyError` listing
the valid keys when it is unknown. -/
def get_theme (key : String) : Except GenErr Theme :=
  match lookupTheme THEMES (normalizeThemeKey key) with
  | some t => Except.ok t
  | none => Except.error (GenErr.notFound
      ("Unknown theme '" ++ key ++ "'. Available themes: " ++
        String.intercalate ", " (THEMES.map Prod.fst)))

/-! ## The pseudo-random stream

Modelled from the spec: the source seeds Python's `random.Random(seed)`
(a library facility, not part of the repository) and the spec requires only
that it is "a single seeded pseudo-random stream for the entire generation",
deterministic given a seed.  The model is a deterministic word stream over
`Nat` (a 64-bit linear congruential step, overflow taken explicitly
`% 2 ^ 64`); `random.Random(None)` seeds from the operating system, which is
modelled by an explicit `entropy` input. -/

structure Rng where
  state : Nat
deriving DecidableEq, Repr

def rngNext (r : Rng) : Nat × Rng :=
  let s := (1442695040888963407 + 6364136223846793005 * r.state) % 2 ^ 64
  (s, ⟨s⟩)

def Rng.init (seed : Option Int) (entropy : Nat) : Rng :=
  match seed with
  | some s => ⟨(s % (2 ^ 64 : Int)).toNat⟩
  | none => ⟨entropy % 2 ^ 64⟩

/-- `rng.choice(l)`: one draw, uniform over the list.  Python raises on an
empty sequence; every call site in the source passes a non-empty static
list, so the default value is never selected there. -/
def Rng.choice (r : Rng) (l : List α) (dflt : α) : α × Rng :=
  let (n, r') := rngNext r
  (l.getD (n % l.length) dflt, r')

/-- `rng.random() < 0.55`: one draw turned into a Bernoulli(0.55) decision. -/
def Rng.below55 (r : Rng) : Bool × Rng :=
  let (n, r') := rngNext r
  (n % 100 < 55, r')

/-! ## `_roman` (generator.py) -/

def romanNumerals : List (Nat × String) :=
  [(1000, "M"), (900, "CM"), (500, "D"), (400, "CD"), (100, "C"), (90, "XC"), (50, "L"),
    (40, "XL"), (10, "X"), (9, "IX"), (5, "V"), (4, "IV"), (1, "I")]

/-- The inner `while remaining >= value` loop of `_roman`, which appends the
numeral once per subtraction, appends it `remaining / value` times and leaves
`remaining % value`. -/
def romanStep (acc : List String × Nat) (p : Nat × String) : List String × Nat :=
  (acc.1 ++ List.replicate (acc.2 / p.1) p.2, acc.2 % p.1)

def roman (number : Nat) : String :=
  let res := romanNumerals.foldl romanStep ([], number)
  if res.1 = [] then "I" else String.join res.1

/-! ## Division naming (generator.py) -/

/-- `_division_name` from `generator.py` (its `total_levels` parameter is
unused in the source and omitted here).  `if custom and len(custom) >= level`
is Python truthiness: `None` and the empty list both fall through. -/
def division_name (theme : Theme) (level : Nat) (custom : Option (List String)) : String :=
  match custom with
  | some c =>
      if c ≠ [] ∧ level ≤ c.length then c.getD (level - 1) ""
      else defaultDivisionName theme level
  | none => defaultDivisionName theme level
where
  defaultDivisionName (theme : Theme) (level : Nat) : String :=
    if level = 1 then theme.premier_title
    else if level = 2 then theme.championship_title
    else theme.region_name ++ " " ++ theme.lower_division_title ++ " " ++ roman (level - 2)

/-- `_short_name` from `generator.py`. -/
def shortNameFor (theme : Theme) (level : Nat) : String :=
  theme.shortPrefix ++ " L" ++ toString level

/-! ## Template rendering

Models Python `template.format(inspiration=..., location=...)` for the
placeholder fields occurring in the theme data: one left-to-right scan that
substitutes each field.  The fuel is the character count, enough because
every step consumes at least one character. -/

def TEMPLATE_INSPIRATION : List Char := "{inspiration}".toList

def TEMPLATE_LOCATION : List Char := "{location}".toList

def renderAux (ins loc : String) : Nat → List Char → List Char
  | 0, cs => cs
  | fuel + 1, cs =>
    match cs with
    | [] => []
    | c :: rest =>
      if TEMPLATE_INSPIRATION.isPrefixOf (c :: rest) then
        ins.toList ++ renderAux ins loc fuel (rest.drop 12)
      else if TEMPLATE_LOCATION.isPrefixOf (c :: rest) then
        loc.toList ++ renderAux ins loc fuel (rest.drop 9)
      else c :: renderAux ins loc fuel rest

def renderTemplate (template ins loc : String) : String :=
  String.mk (renderAux ins loc template.toList.length template.toList)

/-! ## Timestamps

Modelled from the spec: the source calls `datetime.utcnow()`, `.isoformat()`
and `datetime.fromisoformat(...)` from the standard library.  The spec says
the timestamp is UTC, second-or-finer precision, and round-trips through
ISO-8601 text, which is what `isoformat` produces:
`YYYY-MM-DDTHH:MM:SS` with `.ffffff` appended exactly when the microsecond
field is non-zero. -/

structure Datetime where
  year : Nat
  month : Nat
  day : Nat
  hour : Nat
  minute : Nat
  second : Nat
  microsecond : Nat
deriving DecidableEq, Repr

/-- The field ranges `datetime` enforces (day upper bound relaxed to 31). -/
def Datetime.valid (t : Datetime) : Prop :=
  1 ≤ t.year ∧ t.year ≤ 9999 ∧ 1 ≤ t.month ∧ t.month ≤ 12 ∧ 1 ≤ t.day ∧ t.day ≤ 31 ∧
    t.hour ≤ 23 ∧ t.minute ≤ 59 ∧ t.second ≤ 59 ∧ t.microsecond ≤ 999999

instance (t : Datetime) : Decidable t.valid :=
  inferInstanceAs (Decidable (_ ∧ _))

def digitChar (d : Nat) : Char := Char.ofNat (48 + d)

def pad2 (n : Nat) : List Char := [digitChar (n / 10), digitChar (n % 10)]

def pad4 (n : Nat) : List Char :=
  [digitChar (n / 1000), digitChar (n / 100 % 10), digitChar (n / 10 % 10), digitChar (n % 10)]

def pad6 (n : Nat) : List Char :=
  [digitChar (n / 100000), digitChar (n / 10000 % 10), digitChar (n / 1000 % 10),
    digitChar (n / 100 % 10), digitChar (n / 10 % 10), digitChar (n % 10)]

def isoformat (t : Datetime) : String :=
  String.mk (pad4 t.year ++ '-' :: pad2 t.month ++ '-' :: pad2 t.day ++
    'T' :: pad2 t.hour ++ ':' :: pad2 t.minute ++ ':' :: pad2 t.second ++
    (if t.microsecond = 0 then [] else '.' :: pad6 t.microsecond))

def digitVal (c : Char) : Option Nat :=
  if c.isDigit then some (c.toNat - 48) else none

def digits2 (a b : Char) : Option Nat := do
  let x ← digitVal a
  let y ← digitVal b
  pure (10 * x + y)

def digits4 (a b c d : Char) : Option Nat := do
  let x ← digits2 a b
  let y ← digits2 c d
  pure (100 * x + y)

def digits6 (a b c d e f : Char) : Option Nat := do
  let x ← digits2 a b
  let y ← digits2 c d
  let z ← digits2 e f
  pure (10000 * x + 100 * y + z)

/-- Build and range-check the datetime once all fields are parsed (Python's
constructor raises on out-of-range values). -/
def mkValidDatetime (y mo d h mi s u : Nat) : Option Datetime :=
  let t : Datetime := ⟨y, mo, d, h, mi, s, u⟩
  if t.valid then some t else none

def fromisoChars (cs : List Char) : Option Datetime :=
  match cs with
  | y1 :: y2 :: y3 :: y4 :: c1 :: m1 :: m2 :: c2 :: d1 :: d2 :: ct :: h1 :: h2 :: c3 ::
      n1 :: n2 :: c4 :: s1 :: s2 :: rest =>
    if c1 = '-' ∧ c2 = '-' ∧ ct = 'T' ∧ c3 = ':' ∧ c4 = ':' then
      match rest with
      | [] => do
          let y ← digits4 y1 y2 y3 y4
          let mo ← digits2 m1 m2
          let d ← digits2 d1 d2
          let h ← digits2 h1 h2
          let mi ← digits2 n1 n2
          let s ← digits2 s1 s2
          mkValidDatetime y mo d h mi s 0
      | [cd, u1, u2, u3, u4, u5, u6] =>
        if cd = '.' then do
          let y ← digits4 y1 y2 y3 y4
          let mo ← digits2 m1 m2
          let d ← digits2 d1 d2
          let h ← digits2 h1 h2
          let mi ← digits2 n1 n2
          let s ← digits2 s1 s2
          let u ← digits6 u1 u2 u3 u4 u5 u6
          mkValidDatetime y mo d h mi s u
        else none
      | _ => none
    else none
  | _ => none

def fromisoformat (s : String) : Option Datetime := fromisoChars s.data

/-! ## Data model (`model.py`) -/

structure Team where
  name : String
  location : String
  inspiration : String
  notes : Option String := none
deriving DecidableEq, Repr

structure Division where
  level : Int
  name : String
  short_name : Option String := none
  teams : List Team := []
deriving DecidableEq, Repr

structure Pyramid where
  title : String
  description : String
  divisions : List Division
  meta : Dict := []
  generated_at : Option Datetime := none
deriving DecidableEq, Repr

/-- Python's string comparison: lexicographic on the code points. -/
def charsLe : List Char → List Char → Bool
  | [], _ => true
  | _ :: _, [] => false
  | c :: a, d :: b =>
    if c.toNat < d.toNat then true
    else if d.toNat < c.toNat then false
    else charsLe a b

def strLe (a b : String) : Prop := charsLe a.data b.data = true

instance (a b : String) : Decidable (strLe a b) :=
  inferInstanceAs (Decidable (_ = true))

theorem charsLe_total (a b : List Char) : charsLe a b = true ∨ charsLe b a = true := by
  induction a generalizing b with
  | nil => exact Or.inl rfl
  | cons c a ih =>
    cases b with
    | nil => exact Or.inr rfl
    | cons d b =>
      by_cases h₁ : c.toNat < d.toNat
      · exact Or.inl (by simp [charsLe, h₁])
      · by_cases h₂ : d.toNat < c.toNat
        · exact Or.inr (by simp [charsLe, h₂])
        · rcases ih b with h | h
          · exact Or.inl (by simp [charsLe, h₁, h₂, h])
          · exact Or.inr (by simp [charsLe, h₁, h₂, h])

theorem charsLe_trans (a b c : List Char) (hab : charsLe a b = true)
    (hbc : charsLe b c = true) : charsLe a c = true := by
  induction a generalizing b c with
  | nil => rfl
  | cons x a ih =>
    cases b with
    | nil => simp [charsLe] at hab
    | cons y b =>
      cases c with
      | nil => simp [charsLe] at hbc
      | cons z c =>
        simp only [charsLe] at hab hbc ⊢
        split_ifs at hab hbc ⊢ with h₁ h₂ h₃ h₄ h₅ h₆ <;> try omega
        all_goals first
          | rfl
          | exact ih b c hab hbc

/-- The key function `lambda t: t.name` of `division.teams.sort`. -/
def teamLe (a b : Team) : Prop := strLe a.name b.name

instance : DecidableRel teamLe := fun a b => inferInstanceAs (Decidable (strLe a.name b.name))

instance : IsTotal Team teamLe := ⟨fun a b => charsLe_total a.name.data b.name.data⟩

instance : IsTrans Team teamLe :=
  ⟨fun a b c h₁ h₂ => charsLe_trans a.name.data b.name.data c.name.data h₁ h₂⟩

/-- The key function `lambda d: d.level` of `divisions.sort`. -/
def divisionLe (a b : Division) : Prop := a.level ≤ b.level

instance : DecidableRel divisionLe := fun a b => inferInstanceAs (Decidable (a.level ≤ b.level))

instance : IsTotal Division divisionLe := ⟨fun a b => le_total a.level b.level⟩

instance : IsTrans Division divisionLe := ⟨fun _ _ _ h₁ h₂ => le_trans h₁ h₂⟩

def Division.sortTeams (d : Division) : Division :=
  { d with teams := d.teams.insertionSort teamLe }

/-- `Pyramid.sort` from `model.py`: a stable ascending sort of the divisions
by level, then a stable ascending sort of each division's teams by name. -/
def Pyramid.sort (p : Pyramid) : Pyramid :=
  { p with divisions := (p.divisions.insertionSort divisionLe).map Division.sortTeams }

/-! ## The generator (`generator.py`) -/

def EXTRA_TEAM_SUFFIXES : List String :=
  ["FC", "United", "Wanderers", "Rovers", "Dynasts", "Guard", "Club"]

/-- The `while name in used_names` loop of `_build_team`: each iteration
draws one suffix and rebuilds `base ++ " " ++ suffix` from the base name.
The source runs this without bound; `none` means it was still running after
`fuel` draws. -/
def resolveNameLoop (base : String) (used : List String) : Nat → Rng → Option (String × Rng)
  | 0, _ => none
  | fuel + 1, r =>
    let (sfx, r') := r.choice EXTRA_TEAM_SUFFIXES ""
    let name := base ++ " " ++ sfx
    if name ∈ used then resolveNameLoop base used fuel r' else some (name, r')

def resolveName (base : String) (used : List String) (fuel : Nat) (r : Rng) :
    Option (String × Rng) :=
  if base ∈ used then resolveNameLoop base used fuel r else some (base, r)

/-- `_build_team`: draws location, mascot, adjective, the 0.55 coin, then
resolves name collisions, then draws inspiration and a notes template. -/
def build_team (theme : Theme) (used : List String) (fuel : Nat) (r : Rng) :
    Option (Team × List String × Rng) :=
  let (location, r1) := r.choice theme.locations ""
  let (mascot, r2) := r1.choice theme.mascots ""
  let (adjective, r3) := r2.choice theme.adjectives ""
  let (isShort, r4) := r3.below55
  let base := if isShort then location ++ " " ++ mascot
    else location ++ " " ++ adjective ++ " " ++ mascot
  match resolveName base used fuel r4 with
  | none => none
  | some (name, r5) =>
    let used' := name :: used
    let (inspiration, r6) := r5.choice theme.inspirations ""
    let (tmpl, r7) := r6.choice theme.notes_templates ""
    let notes := renderTemplate tmpl inspiration location
    some ({ name := name, location := location, inspiration := inspiration,
            notes := some notes }, used', r7)

/-- `[_build_team(...) for _ in range(team_count)]`, threading the running
set of used names and the stream. -/
def build_teams (theme : Theme) (fuel : Nat) : Nat → List String → Rng →
    Option (List Team × List String × Rng)
  | 0, used, r => some ([], used, r)
  | n + 1, used, r =>
    match build_team theme used fuel r with
    | none => none
    | some (t, used', r') =>
      match build_teams theme fuel n used' r' with
      | none => none
      | some (ts, used'', r'') => some (t :: ts, used'', r'')

/-- `_build_division`; Python's `range` of a non-positive count is empty,
hence `team_count.toNat`. -/
def build_division (theme : Theme) (custom : Option (List String)) (fuel : Nat)
    (level : Nat) (team_count : Int) (used : List String) (r : Rng) :
    Option (Division × List String × Rng) :=
  let name := division_name theme level custom
  let sname := shortNameFor theme level
  match build_teams theme fuel team_count.toNat used r with
  | none => none
  | some (ts, used', r') =>
    some ({ level := (level : Int), name := name, short_name := some sname, teams := ts },
      used', r')

/-- The `for idx, team_count in enumerate(level_sizes, start=1)` loop. -/
def build_divisions (theme : Theme) (custom : Option (List String)) (fuel : Nat) :
    List Int → Nat → List String → Rng → Option (List Division × List String × Rng)
  | [], _, used, r => some ([], used, r)
  | sz :: rest, level, used, r =>
    match build_division theme custom fuel level sz used r with
    | none => none
    | some (d, used', r') =>
      match build_divisions theme custom fuel rest (level + 1) used' r' with
      | none => none
      | some (ds, used'', r'') => some (d :: ds, used'', r'')

/-- Python `x or default` on an optional string: `None` and `""` are falsy. -/
def pyOr : Option String → String → String
  | some s, d => if s = "" then d else s
  | none, d => d

/-- The five literal `meta` entries of `generate_pyramid`. -/
def metaBaseCore (themeObj : Theme) (seed : Option Int) (level_sizes : List Int) : Dict :=
  [("theme", Jval.str themeObj.key),
    ("seed", match seed with | some s => Jval.int s | none => Jval.null),
    ("levels", Jval.intList level_sizes),
    ("short_prefix", Jval.str themeObj.shortPrefix),
    ("generated_using", Jval.str "ffxiv_pyramid")]

/-- The `meta` dict of `generate_pyramid` before the `extra_meta` merge: the
five literal entries, with the custom division names appended when that
argument is truthy. -/
def metaBase (themeObj : Theme) (seed : Option Int) (level_sizes : List Int)
    (custom : Option (List String)) : Dict :=
  match custom with
  | some c =>
    if c ≠ [] then
      metaBaseCore themeObj seed level_sizes ++ [("custom_division_names", Jval.strList c)]
    else metaBaseCore themeObj seed level_sizes
  | none => metaBaseCore themeObj seed level_sizes

/-- The `meta` dict built by `generate_pyramid`: the base entries, then
`meta.update(extra_meta)` when that argument is truthy. -/
def metaFor (themeObj : Theme) (seed : Option Int) (level_sizes : List Int)
    (custom : Option (List String)) (extra : Option Dict) : Dict :=
  match extra with
  | some e =>
    if e ≠ [] then dictUpdate (metaBase themeObj seed level_sizes custom) e
    else metaBase themeObj seed level_sizes custom
  | none => metaBase themeObj seed level_sizes custom

/-- `generate_pyramid` from `generator.py`.  `entropy` models the operating
system entropy `random.Random(None)` would consume, `now` the
`datetime.utcnow()` capture, and `fuel` bounds each collision loop
(`Except.ok none` = a loop was still running after `fuel` draws). -/
def generate_pyramid (fuel : Nat) (level_sizes : List Int) (theme : String)
    (seed : Option Int) (title description : Option String)
    (custom_division_names : Option (List String)) (extra_meta : Option Dict)
    (entropy : Nat) (now : Datetime) : Except GenErr (Option Pyramid) :=
  if level_sizes = [] then
    Except.error (GenErr.invalidInput "At least one level size is required to generate a pyramid.")
  else
    match get_theme theme with
    | Except.error e => Except.error e
    | Except.ok themeObj =>
      match build_divisions themeObj custom_division_names fuel level_sizes 1 []
          (Rng.init seed entropy) with
      | none => Except.ok none
      | some (divisions, _, _) =>
        Except.ok (some (Pyramid.sort
          { title := pyOr title (themeObj.region_name ++ " Football Pyramid"),
            description := pyOr description themeObj.highlight,
            divisions := divisions,
            meta := metaFor themeObj seed level_sizes custom_division_names extra_meta,
            generated_at := some now }))

/-! ## The serializer (`io.py`)

The JSON document is modelled structurally.  A `none` field stands both for
an absent key and for an explicit `null`: every read in `dict_to_pyramid`
goes through `.get(...)` (or the `if generated_at:` truthiness test), which
treats the two alike, and `pyramid_to_dict` only ever writes `null` for
values that deserialize back to `None`. -/

structure TeamDoc where
  name : Option String := none
  location : Option String := none
  inspiration : Option String := none
  notes : Option String := none
deriving DecidableEq, Repr

structure DivisionDoc where
  level : Option Int := none
  name : Option String := none
  short_name : Option String := none
  teams : Option (List TeamDoc) := none
deriving DecidableEq, Repr

structure PyramidDoc where
  title : Option String := none
  description : Option String := none
  generated_at : Option String := none
  meta : Option Dict := none
  divisions : Option (List DivisionDoc) := none
deriving DecidableEq, Repr

def team_to_doc (t : Team) : TeamDoc :=
  { name := some t.name, location := some t.location, inspiration := some t.inspiration,
    notes := t.notes }

def division_to_doc (d : Division) : DivisionDoc :=
  { level := some d.level, name := some d.name, short_name := d.short_name,
    teams := some (d.teams.map team_to_doc) }

/-- `pyramid_to_dict` from `io.py`; `generated_at` is rendered with
`isoformat` when present (a `datetime` is always truthy). -/
def pyramid_to_dict (p : Pyramid) : PyramidDoc :=
  { title := some p.title, description := some p.description,
    generated_at := p.generated_at.map isoformat, meta := some p.meta,
    divisions := some (p.divisions.map division_to_doc) }

/-- One team of `dict_to_pyramid`: `team_data["name"]` raises when the key
is missing, the other fields default. -/
def team_from_doc (td : TeamDoc) : Except GenErr Team :=
  match td.name with
  | none => Except.error (GenErr.malformed "KeyError: 'name'")
  | some n =>
      Except.ok
        { name := n, location := td.location.getD "",
          inspiration := td.inspiration.getD "", notes := td.notes }

/-- One division of `dict_to_pyramid`: the team list is rebuilt first, then
`division_data["level"]` and `division_data["name"]` are read (the document
level is already an integer, on which `int(...)` is the identity). -/
def division_from_doc (dd : DivisionDoc) : Except GenErr Division := do
  let teams ← (dd.teams.getD []).mapM team_from_doc
  match dd.level, dd.name with
  | some lv, some nm =>
      Except.ok { level := lv, name := nm, short_name := dd.short_name, teams := teams }
  | none, _ => Except.error (GenErr.malformed "KeyError: 'level'")
  | _, none => Except.error (GenErr.malformed "KeyError: 'name'")

/-- The `if generated_at: datetime.fromisoformat(generated_at)` step; the
empty string is falsy and a malformed string raises `ValueError`. -/
def parseGeneratedAt : Option String → Except GenErr (Option Datetime)
  | none => Except.ok none
  | some s =>
    if s = "" then Except.ok none
    else
      match fromisoformat s with
      | some t => Except.ok (some t)
      | none => Except.error (GenErr.malformed "Invalid isoformat string")

/-- `dict_to_pyramid` from `io.py`. -/
def dict_to_pyramid (doc : PyramidDoc) : Except GenErr Pyramid := do
  let divisions ← (doc.divisions.getD []).mapM division_from_doc
  let genAt ← parseGeneratedAt doc.generated_at
  Except.ok (Pyramid.sort
    { title := doc.title.getD "Unnamed Pyramid", description := doc.description.getD "",
      divisions := divisions, meta := doc.meta.getD [], generated_at := genAt })

/-! ## Helpers shared by the claim theorems -/

def emptyPyramid : Pyramid := { title := "", description := "", divisions := [] }

/-- Strip the `Except`/`Option` wrappers off a generation result. -/
def genOk : Except GenErr (Option Pyramid) → Option Pyramid
  | Except.ok op => op
  | Except.error _ => none

/-- A fixed timestamp used to instantiate `now` in concrete evaluations. -/
def wNow : Datetime := ⟨2024, 5, 6, 7, 8, 9, 10⟩

def isOkPyramid : Except GenErr (Option Pyramid) → Bool
  | Except.ok (some _) => true
  | _ => false

def isInvalidInput : Except GenErr (Option Pyramid) → Bool
  | Except.error (GenErr.invalidInput _) => true
  | _ => false

def eraseGeneratedAt (p : Pyramid) : Pyramid := { p with generated_at := none }

/-- All team names of a pyramid, across every division. -/
def pyramidTeamNames (p : Pyramid) : List String :=
  p.divisions.flatMap (fun d => d.teams.map Team.name)

/-- The suffix the collision loop would draw on its i-th iteration (the loop
consumes exactly one draw per iteration, so this only depends on the stream
state at loop entry). -/
def nthSuffix (r : Rng) : Nat → String
  | 0 => (r.choice EXTRA_TEAM_SUFFIXES "").1
  | i + 1 => nthSuffix (r.choice EXTRA_TEAM_SUFFIXES "").2 i

/-- A used-name set holding the base name "Gridania Scions" together with
all seven suffixed variants: every candidate the collision loop can ever
build from this base. -/
def stuckUsed : List String :=
  ["Gridania Scions", "Gridania Scions FC", "Gridania Scions United",
    "Gridania Scions Wanderers", "Gridania Scions Rovers", "Gridania Scions Dynasts",
    "Gridania Scions Guard", "Gridania Scions Club"]

/-- The concrete pyramid used to witness the empty-string default claim. -/
def wPyrC10 : Pyramid :=
  (genOk (generate_pyramid 30 [1] "eorzea" (some 2) (some "") (some "") none none 0 wNow)).getD
    emptyPyramid

/-- A successful generation determines every field of the result. -/
theorem generate_ok_fields (fuel : Nat) (ls : List Int) (th : String) (seed : Option Int)
    (title desc : Option String) (custom : Option (List String)) (extra : Option Dict)
    (ent : Nat) (now : Datetime) (tm : Theme) (p : Pyramid)
    (hth : get_theme th = Except.ok tm)
    (hp : generate_pyramid fuel ls th seed title desc custom extra ent now = Except.ok (some p)) :
    p.title = pyOr title (tm.region_name ++ " Football Pyramid") ∧
      p.description = pyOr desc tm.highlight ∧
      p.meta = metaFor tm seed ls custom extra ∧
      p.generated_at = some now ∧
      ∃ ds u r, build_divisions tm custom fuel ls 1 [] (Rng.init seed ent) = some (ds, u, r) ∧
        p.divisions = (ds.insertionSort divisionLe).map Division.sortTeams := by
  unfold generate_pyramid at hp
  split at hp
  · simp at hp
  · rw [hth] at hp
    simp only at hp
    cases hb : build_divisions tm custom fuel ls 1 [] (Rng.init seed ent) with
    | none => rw [hb] at hp; simp at hp
    | some x =>
      obtain ⟨ds, u, r⟩ := x
      rw [hb] at hp
      simp only [Except.ok.injEq, Option.some.injEq] at hp
      subst hp
      exact ⟨rfl, rfl, rfl, rfl, ds, u, r, rfl, rfl⟩

theorem get_theme_error_cases (k : String) (e : GenErr) (h : get_theme k = Except.error e) :
    ∃ m, e = GenErr.notFound m := by
  unfold get_theme at h
  cases hl : lookupTheme THEMES (normalizeThemeKey k) <;> rw [hl] at h <;> simp_all
  exact ⟨_, h.symm⟩

/-! ## Claim theorems -/

/-- C8: the Roman-numeral conversion satisfies roman 1 = "I", roman 4 = "IV",
roman 9 = "IX", roman 40 = "XL" and roman 1994 = "MCMXCIV". -/
theorem claim_c8_roman_values :
    roman 1 = "I" ∧ roman 4 = "IV" ∧ roman 9 = "IX" ∧ roman 40 = "XL" ∧
      roman 1994 = "MCMXCIV" := by
  decide

/-- C2 counterexample: `level_sizes = [0, -3]` contains a zero and a negative
entry, yet `generate_pyramid` returns a Pyramid (with empty divisions) rather
than raising `InvalidInput`. -/
theorem claim_c2_counterexample :
    isOkPyramid (generate_pyramid 30 [0, -3] "eorzea" (some 1) none none none none 0
      ⟨2024, 1, 1, 0, 0, 0, 0⟩) = true := by
  rfl

/-- C2 (amended): `generate_pyramid` raises `InvalidInput` exactly when
`level_sizes` is empty; sequences containing zero or negative entries are
accepted and produce divisions with no teams. -/
theorem claim_c2_amended (fuel : Nat) (ls : List Int) (th : String) (seed : Option Int)
    (title desc : Option String) (custom : Option (List String)) (extra : Option Dict)
    (ent : Nat) (now : Datetime) :
    isInvalidInput (generate_pyramid fuel ls th seed title desc custom extra ent now) = true
      ↔ ls = [] := by
  unfold generate_pyramid
  split
  case isTrue h => simp [isInvalidInput, h]
  case isFalse h =>
    cases hg : get_theme th with
    | error e =>
      obtain ⟨m, rfl⟩ := get_theme_error_cases th e hg
      simp [isInvalidInput, h]
    | ok tm =>
      cases hb : build_divisions tm custom fuel ls 1 [] (Rng.init seed ent) with
      | none => simp [hb, isInvalidInput, h]
      | some x =>
        obtain ⟨ds, u, r⟩ := x
        simp [hb, isInvalidInput, h]

/-- C1: with the seed fixed (to any integer value), two calls to
`generate_pyramid` with the same level sizes, theme, titles, custom names and
extra meta — but possibly different operating-system entropy and different
clock readings — return results that are structurally identical in every
field once the `generated_at` timestamp is erased. -/
theorem claim_c1_determinism (fuel : Nat) (ls : List Int) (th : String) (s : Int)
    (title desc : Option String) (custom : Option (List String)) (extra : Option Dict)
    (ent₁ ent₂ : Nat) (t₁ t₂ : Datetime) :
    (generate_pyramid fuel ls th (some s) title desc custom extra ent₁ t₁).map
        (Option.map eraseGeneratedAt) =
      (generate_pyramid fuel ls th (some s) title desc custom extra ent₂ t₂).map
        (Option.map eraseGeneratedAt) := by
  have hr : Rng.init (some s) ent₁ = Rng.init (some s) ent₂ := rfl
  unfold generate_pyramid
  split
  · rfl
  cases hg : get_theme th with
  | error e => rfl
  | ok tm =>
    simp only [hr]
    cases hb : build_divisions tm custom fuel ls 1 [] (Rng.init (some s) ent₂) with
    | none => simp [hb]
    | some x =>
      obtain ⟨ds, u, r⟩ := x
      simp [hb, Pyramid.sort, Except.map, Option.map, eraseGeneratedAt]

/-- C10: the empty string as `title` or `description` argument is falsy in
Python's `x or default`, so it is treated exactly like omitting the argument:
the calls are equal term for term, and on success the title defaults to
"{region_name} Football Pyramid" and the description to the theme's
highlight text. -/
theorem claim_c10_empty_string_defaults (fuel : Nat) (ls : List Int) (th : String)
    (seed : Option Int) (title desc : Option String) (custom : Option (List String))
    (extra : Option Dict) (ent : Nat) (now : Datetime) (tm : Theme) :
    (generate_pyramid fuel ls th seed (some "") desc custom extra ent now =
        generate_pyramid fuel ls th seed none desc custom extra ent now) ∧
      (generate_pyramid fuel ls th seed title (some "") custom extra ent now =
        generate_pyramid fuel ls th seed title none custom extra ent now) ∧
      (get_theme th = Except.ok tm →
        (∀ p, generate_pyramid fuel ls th seed (some "") desc custom extra ent now =
            Except.ok (some p) → p.title = tm.region_name ++ " Football Pyramid") ∧
        (∀ p, generate_pyramid fuel ls th seed title (some "") custom extra ent now =
            Except.ok (some p) → p.description = tm.highlight)) := by
  refine ⟨rfl, rfl, fun hth => ⟨fun p hp => ?_, fun p hp => ?_⟩⟩
  · rw [(generate_ok_fields fuel ls th seed (some "") desc custom extra ent now tm p
      hth hp).1]
    simp [pyOr]
  · rw [(generate_ok_fields fuel ls th seed title (some "") custom extra ent now tm p
      hth hp).2.1]
    simp [pyOr]

/-- C10 witness: a concrete call with empty-string title and description
yields the default title and the eorzea highlight. -/
theorem claim_c10_witness :
    wPyrC10.title = "Eorzean Football Pyramid" ∧ wPyrC10.description = eorzeaTheme.highlight := by
  have h := claim_c10_empty_string_defaults 30 [1] "eorzea" (some 2) (some "") (some "")
    none none 0 wNow eorzeaTheme
  exact ⟨(h.2.2 (by rfl)).1 wPyrC10 (by rfl), (h.2.2 (by rfl)).2 wPyrC10 (by rfl)⟩

theorem choice_mem (r : Rng) (l : List String) (d : String) (h : l ≠ []) :
    (r.choice l d).1 ∈ l := by
  have hpos : 0 < l.length := List.length_pos.mpr h
  have hlt : (rngNext r).1 % l.length < l.length := Nat.mod_lt _ hpos
  simp only [Rng.choice]
  rw [List.getD_eq_getElem l d hlt]
  exact List.getElem_mem hlt

/-- One unfolding of the collision loop. -/
theorem resolveNameLoop_succ (base : String) (used : List String) (n : Nat) (r : Rng) :
    resolveNameLoop base used (n + 1) r =
      if (base ++ " " ++ (r.choice EXTRA_TEAM_SUFFIXES "").1) ∈ used then
        resolveNameLoop base used n (r.choice EXTRA_TEAM_SUFFIXES "").2
      else some (base ++ " " ++ (r.choice EXTRA_TEAM_SUFFIXES "").1,
        (r.choice EXTRA_TEAM_SUFFIXES "").2) := rfl

/-- When every candidate name for this base is already used, the collision
loop never exits, whatever the fuel. -/
theorem resolveNameLoop_stuck (base : String) (used : List String) (fuel : Nat) (r : Rng)
    (h : ∀ s ∈ EXTRA_TEAM_SUFFIXES, (base ++ " " ++ s) ∈ used) :
    resolveNameLoop base used fuel r = none := by
  induction fuel generalizing r with
  | zero => rfl
  | succ n ih =>
    have hm : (r.choice EXTRA_TEAM_SUFFIXES "").1 ∈ EXTRA_TEAM_SUFFIXES :=
      choice_mem r _ "" (by decide)
    rw [resolveNameLoop_succ, if_pos (h _ hm)]
    exact ih _

/-- C6 counterexample: with the base name "Gridania Scions" and all eight of
its candidate names already in the used set, the collision loop of
`_build_team` never exits, however many draws it is allowed. -/
theorem claim_c6_counterexample :
    ¬ ∃ fuel res, resolveName "Gridania Scions" stuckUsed fuel ⟨0⟩ = some res := by
  rintro ⟨fuel, res, h⟩
  rw [resolveName, if_pos (by decide),
    resolveNameLoop_stuck "Gridania Scions" stuckUsed fuel ⟨0⟩ (by decide)] at h
  exact absurd h (by simp)

theorem resolveNameLoop_some_iff (base : String) (used : List String) (r : Rng) :
    (∃ fuel res, resolveNameLoop base used fuel r = some res) ↔
      ∃ i, (base ++ " " ++ nthSuffix r i) ∉ used := by
  constructor
  · rintro ⟨fuel, res, h⟩
    induction fuel generalizing r with
    | zero => exact absurd h (by simp [resolveNameLoop])
    | succ n ih =>
      by_cases hc : (base ++ " " ++ (r.choice EXTRA_TEAM_SUFFIXES "").1) ∈ used
      · have h' : resolveNameLoop base used n (r.choice EXTRA_TEAM_SUFFIXES "").2 = some res := by
          rwa [resolveNameLoop_succ, if_pos hc] at h
        obtain ⟨i, hi⟩ := ih _ h'
        exact ⟨i + 1, by simpa [nthSuffix] using hi⟩
      · exact ⟨0, by simpa [nthSuffix] using hc⟩
  · rintro ⟨i, hi⟩
    induction i generalizing r with
    | zero =>
      refine ⟨1, (base ++ " " ++ (r.choice EXTRA_TEAM_SUFFIXES "").1,
        (r.choice EXTRA_TEAM_SUFFIXES "").2), ?_⟩
      have hc : ¬ (base ++ " " ++ (r.choice EXTRA_TEAM_SUFFIXES "").1) ∈ used := by
        simpa [nthSuffix] using hi
      rw [resolveNameLoop_succ, if_neg hc]
    | succ n ih =>
      by_cases hc : (base ++ " " ++ (r.choice EXTRA_TEAM_SUFFIXES "").1) ∈ used
      · obtain ⟨fuel, res, h⟩ := ih _ (by simpa [nthSuffix] using hi)
        refine ⟨fuel + 1, res, ?_⟩
        rwa [resolveNameLoop_succ, if_pos hc]
      · exact ⟨1, (base ++ " " ++ (r.choice EXTRA_TEAM_SUFFIXES "").1,
          (r.choice EXTRA_TEAM_SUFFIXES "").2), by rw [resolveNameLoop_succ, if_neg hc]⟩

/-- C6 (amended): the collision loop of `_build_team` exits after finitely
many draws precisely when the base name itself is unused, or some iteration
of the stream draws a suffix whose candidate name is unused; in particular
it exits immediately on an unused base name, and it never exits when the
base name and all seven suffixed variants are in use, so `generate_pyramid`
is not guaranteed to terminate on every input. -/
theorem claim_c6_amended (base : String) (used : List String) (r : Rng) :
    (∃ fuel res, resolveName base used fuel r = some res) ↔
      (base ∉ used ∨ ∃ i, (base ++ " " ++ nthSuffix r i) ∉ used) := by
  simp only [resolveName]
  by_cases hb : base ∈ used
  · simp only [if_pos hb]
    rw [resolveNameLoop_some_iff]
    simp [hb]
  · simp only [if_neg hb]
    exact ⟨fun _ => Or.inl hb, fun _ => ⟨0, (base, r), rfl⟩⟩


theorem digitVal_digitChar (d : Nat) (h : d < 10) : digitVal (digitChar d) = some d := by
  interval_cases d <;> decide

theorem digits2_pads (n : Nat) (h : n < 100) :
    digits2 (digitChar (n / 10)) (digitChar (n % 10)) = some n := by
  simp [digits2, digitVal_digitChar _ (show n / 10 < 10 by omega),
    digitVal_digitChar _ (show n % 10 < 10 by omega)]
  omega

theorem digits4_pads (n : Nat) (h : n < 10000) :
    digits4 (digitChar (n / 1000)) (digitChar (n / 100 % 10)) (digitChar (n / 10 % 10))
      (digitChar (n % 10)) = some n := by
  simp [digits4, digits2, digitVal_digitChar _ (show n / 1000 < 10 by omega),
    digitVal_digitChar _ (show n / 100 % 10 < 10 by omega),
    digitVal_digitChar _ (show n / 10 % 10 < 10 by omega),
    digitVal_digitChar _ (show n % 10 < 10 by omega)]
  omega

theorem digits6_pads (n : Nat) (h : n < 1000000) :
    digits6 (digitChar (n / 100000)) (digitChar (n / 10000 % 10)) (digitChar (n / 1000 % 10))
      (digitChar (n / 100 % 10)) (digitChar (n / 10 % 10)) (digitChar (n % 10)) = some n := by
  simp [digits6, digits2, digitVal_digitChar _ (show n / 100000 < 10 by omega),
    digitVal_digitChar _ (show n / 10000 % 10 < 10 by omega),
    digitVal_digitChar _ (show n / 1000 % 10 < 10 by omega),
    digitVal_digitChar _ (show n / 100 % 10 < 10 by omega),
    digitVal_digitChar _ (show n / 10 % 10 < 10 by omega),
    digitVal_digitChar _ (show n % 10 < 10 by omega)]
  omega

theorem fromiso_iso (t : Datetime) (h : t.valid) : fromisoformat (isoformat t) = some t := by
  obtain ⟨y, mo, d, hh, mi, s, u⟩ := t
  obtain ⟨h1, h2, h3, h4, h5, h6, h7, h8, h9, h10⟩ := h
  dsimp only at h1 h2 h3 h4 h5 h6 h7 h8 h9 h10
  unfold fromisoformat isoformat
  by_cases hu : u = 0
  · subst hu
    have hval : Datetime.valid ⟨y, mo, d, hh, mi, s, 0⟩ :=
      ⟨h1, h2, h3, h4, h5, h6, h7, h8, h9, (by omega : (0 : Nat) ≤ 999999)⟩
    simp only [if_pos rfl, pad4, pad2, List.cons_append, List.nil_append]
    simp [fromisoChars, digits4_pads y (by omega), digits2_pads mo (by omega),
      digits2_pads d (by omega), digits2_pads hh (by omega), digits2_pads mi (by omega),
      digits2_pads s (by omega), mkValidDatetime, hval]
  · have hval : Datetime.valid ⟨y, mo, d, hh, mi, s, u⟩ :=
      ⟨h1, h2, h3, h4, h5, h6, h7, h8, h9, h10⟩
    simp only [if_neg hu, pad4, pad2, pad6, List.cons_append, List.nil_append]
    simp [fromisoChars, digits4_pads y (by omega), digits2_pads mo (by omega),
      digits2_pads d (by omega), digits2_pads hh (by omega), digits2_pads mi (by omega),
      digits2_pads s (by omega), digits6_pads u (by omega), mkValidDatetime, hval]
theorem team_roundtrip (t : Team) : team_from_doc (team_to_doc t) = Except.ok t := rfl

theorem teams_mapM_roundtrip (ts : List Team) :
    (ts.map team_to_doc).mapM team_from_doc = Except.ok ts := by
  induction ts with
  | nil => rfl
  | cons t ts ih =>
    rw [List.map_cons, List.mapM_cons, team_roundtrip, ih]
    rfl

theorem division_roundtrip (d : Division) :
    division_from_doc (division_to_doc d) = Except.ok d := by
  unfold division_from_doc division_to_doc
  rw [show (some (d.teams.map team_to_doc)).getD [] = d.teams.map team_to_doc from rfl,
    teams_mapM_roundtrip]
  rfl

theorem divisions_mapM_roundtrip (ds : List Division) :
    (ds.map division_to_doc).mapM division_from_doc = Except.ok ds := by
  induction ds with
  | nil => rfl
  | cons d ds ih =>
    rw [List.map_cons, List.mapM_cons, division_roundtrip, ih]
    rfl

theorem isoformat_ne_empty (t : Datetime) : isoformat t ≠ "" := by
  intro hcon
  have h2 : (isoformat t).data = [] := congrArg String.data hcon
  rw [isoformat] at h2
  simp only [String.data] at h2
  simp [pad4, List.cons_append] at h2

theorem parse_iso_opt (o : Option Datetime) (h : ∀ t, o = some t → t.valid) :
    parseGeneratedAt (o.map isoformat) = Except.ok o := by
  cases o with
  | none => rfl
  | some t =>
    show parseGeneratedAt (some (isoformat t)) = Except.ok (some t)
    rw [show parseGeneratedAt (some (isoformat t)) =
        (if isoformat t = "" then Except.ok none else
          match fromisoformat (isoformat t) with
          | some t' => Except.ok (some t')
          | none => Except.error (GenErr.malformed "Invalid isoformat string")) from rfl]
    rw [if_neg (isoformat_ne_empty t), fromiso_iso t (h t rfl)]

/-- C3: deserializing the serialization of any Pyramid whose timestamp (when
present) is a valid datetime gives back exactly the sorted pyramid. -/
theorem claim_c3_roundtrip (p : Pyramid)
    (h : ∀ t, p.generated_at = some t → t.valid) :
    dict_to_pyramid (pyramid_to_dict p) = Except.ok (Pyramid.sort p) := by
  unfold dict_to_pyramid pyramid_to_dict
  rw [show (some (p.divisions.map division_to_doc)).getD [] = p.divisions.map division_to_doc
      from rfl, divisions_mapM_roundtrip, parse_iso_opt p.generated_at h]
  rfl

/-- The concrete pyramid used to witness the serialization round-trip. -/
def wPyrC3 : Pyramid :=
  { title := "T", description := "D",
    divisions := [⟨2, "B", none, [⟨"b team", "x", "y", none⟩, ⟨"a team", "x", "y", some "n"⟩]⟩,
      ⟨1, "A", some "S", []⟩],
    meta := [("k", Jval.int 3)], generated_at := some ⟨2026, 10, 12, 5, 14, 30, 123456⟩ }

/-- C3 witness: the round-trip equation evaluated on a concrete hand-built
pyramid with unsorted divisions, unsorted teams and a microsecond timestamp. -/
theorem claim_c3_witness :
    dict_to_pyramid (pyramid_to_dict wPyrC3) = Except.ok (Pyramid.sort wPyrC3) :=
  claim_c3_roundtrip wPyrC3 (fun t ht =>
    (Option.some.inj ht) ▸ (by decide : Datetime.valid ⟨2026, 10, 12, 5, 14, 30, 123456⟩))

/-- The four draws of `_build_team` before collision resolution, named. -/
def teamLocation (theme : Theme) (r : Rng) : String := (r.choice theme.locations "").1

def rngAfterLocation (theme : Theme) (r : Rng) : Rng := (r.choice theme.locations "").2

def teamMascot (theme : Theme) (r : Rng) : String :=
  ((rngAfterLocation theme r).choice theme.mascots "").1

def rngAfterMascot (theme : Theme) (r : Rng) : Rng :=
  ((rngAfterLocation theme r).choice theme.mascots "").2

def teamAdjective (theme : Theme) (r : Rng) : String :=
  ((rngAfterMascot theme r).choice theme.adjectives "").1

def rngAfterAdjective (theme : Theme) (r : Rng) : Rng :=
  ((rngAfterMascot theme r).choice theme.adjectives "").2

def coinShort (theme : Theme) (r : Rng) : Bool := (rngAfterAdjective theme r).below55.1

def rngAfterCoin (theme : Theme) (r : Rng) : Rng := (rngAfterAdjective theme r).below55.2

def teamBase (theme : Theme) (r : Rng) : String :=
  if coinShort theme r then teamLocation theme r ++ " " ++ teamMascot theme r
  else teamLocation theme r ++ " " ++ teamAdjective theme r ++ " " ++ teamMascot theme r

theorem build_team_eq (theme : Theme) (used : List String) (fuel : Nat) (r : Rng) :
    build_team theme used fuel r =
      match resolveName (teamBase theme r) used fuel (rngAfterCoin theme r) with
      | none => none
      | some (name, r5) =>
        some ({ name := name, location := teamLocation theme r,
                inspiration := (r5.choice theme.inspirations "").1,
                notes := some (renderTemplate
                  (((r5.choice theme.inspirations "").2.choice theme.notes_templates "").1)
                  ((r5.choice theme.inspirations "").1) (teamLocation theme r)) },
          name :: used,
          ((r5.choice theme.inspirations "").2.choice theme.notes_templates "").2) := rfl

theorem resolveNameLoop_not_mem (base : String) (used : List String) (fuel : Nat) (r : Rng)
    (nm : String) (r' : Rng) (h : resolveNameLoop base used fuel r = some (nm, r')) :
    nm ∉ used := by
  induction fuel generalizing r with
  | zero => exact absurd h (by simp [resolveNameLoop])
  | succ n ih =>
    rw [resolveNameLoop_succ] at h
    split at h
    · exact ih _ h
    · next hc =>
      obtain ⟨rfl, rfl⟩ : nm = _ ∧ r' = _ := by
        simpa [eq_comm] using h
      exact hc

theorem resolveName_not_mem (base : String) (used : List String) (fuel : Nat) (r : Rng)
    (nm : String) (r' : Rng) (h : resolveName base used fuel r = some (nm, r')) :
    nm ∉ used := by
  unfold resolveName at h
  split at h
  · exact resolveNameLoop_not_mem base used fuel r nm r' h
  · next hb =>
    obtain ⟨rfl, rfl⟩ : nm = base ∧ r' = r := by
      simpa [eq_comm] using h
    exact hb

theorem build_team_spec (theme : Theme) (used : List String) (fuel : Nat) (r : Rng)
    (t : Team) (used' : List String) (r' : Rng)
    (h : build_team theme used fuel r = some (t, used', r')) :
    used' = t.name :: used ∧ t.name ∉ used := by
  rw [build_team_eq] at h
  split at h
  · exact absurd h (by simp)
  · next nm r5 hres =>
    obtain ⟨rfl, rfl, rfl⟩ : t = _ ∧ used' = _ ∧ r' = _ := by
      simpa [eq_comm] using h
    exact ⟨rfl, resolveName_not_mem _ _ _ _ _ _ hres⟩

theorem build_teams_spec (theme : Theme) (fuel : Nat) :
    ∀ (n : Nat) (used : List String) (r : Rng) (ts : List Team) (used' : List String) (r' : Rng),
      build_teams theme fuel n used r = some (ts, used', r') →
      used' = (ts.map Team.name).reverse ++ used ∧
        (ts.map Team.name).Nodup ∧ ∀ x ∈ ts.map Team.name, x ∉ used := by
  intro n
  induction n with
  | zero =>
    intro used r ts used' r' h
    obtain ⟨rfl, rfl, rfl⟩ : ts = [] ∧ used' = used ∧ r' = r := by
      simpa [build_teams, eq_comm] using h
    simp
  | succ m ih =>
    intro used r ts used' r' h
    unfold build_teams at h
    split at h
    · exact absurd h (by simp)
    · next t used₁ r₁ hbt =>
      split at h
      · exact absurd h (by simp)
      · next ts₂ used₂ r₂ hbts =>
        obtain ⟨rfl, rfl, rfl⟩ : ts = t :: ts₂ ∧ used' = used₂ ∧ r' = r₂ := by
          simpa [eq_comm] using h
        obtain ⟨hu₁, hnm⟩ := build_team_spec _ _ _ _ _ _ _ hbt
        subst hu₁
        obtain ⟨hu₂, hnd, hnin⟩ := ih _ _ _ _ _ hbts
        refine ⟨?_, ?_, ?_⟩
        · rw [hu₂]
          simp [List.reverse_cons, List.append_assoc]
        · rw [List.map_cons, List.nodup_cons]
          refine ⟨fun hmem => ?_, hnd⟩
          exact absurd (List.mem_cons_self _ _) (hnin _ hmem)
        · intro x hx
          rw [List.map_cons, List.mem_cons] at hx
          rcases hx with rfl | hx
          · exact hnm
          · intro hxu
            exact hnin _ hx (List.mem_cons_of_mem _ hxu)

theorem build_division_spec (theme : Theme) (custom : Option (List String)) (fuel : Nat)
    (lvl : Nat) (sz : Int) (used : List String) (r : Rng) (d : Division)
    (used' : List String) (r' : Rng)
    (h : build_division theme custom fuel lvl sz used r = some (d, used', r')) :
    d.level = (lvl : Int) ∧ d.name = division_name theme lvl custom ∧
      used' = (d.teams.map Team.name).reverse ++ used ∧
      (d.teams.map Team.name).Nodup ∧ ∀ x ∈ d.teams.map Team.name, x ∉ used := by
  unfold build_division at h
  split at h
  · exact absurd h (by simp)
  · next ts used₂ r₂ hbt =>
    obtain ⟨rfl, rfl, rfl⟩ : d = _ ∧ used' = used₂ ∧ r' = r₂ := by
      simpa [eq_comm] using h
    obtain ⟨hu, hnd, hnin⟩ := build_teams_spec theme fuel _ _ _ _ _ _ hbt
    exact ⟨rfl, rfl, hu, hnd, hnin⟩

/-- The ascending level sequence `start, start+1, ...` of a generated run. -/
def ascLevels : Nat → Nat → List Int
  | _, 0 => []
  | s, n + 1 => (s : Int) :: ascLevels (s + 1) n

theorem ascLevels_mem_le (s n : Nat) : ∀ x ∈ ascLevels s n, (s : Int) ≤ x := by
  induction n generalizing s with
  | zero => simp [ascLevels]
  | succ m ih =>
    intro x hx
    rw [ascLevels, List.mem_cons] at hx
    rcases hx with rfl | hx
    · exact le_refl _
    · have := ih (s + 1) x hx
      omega

theorem ascLevels_pairwise_lt (s n : Nat) :
    (ascLevels s n).Pairwise (fun a b : Int => a < b) := by
  induction n generalizing s with
  | zero => simp [ascLevels]
  | succ m ih =>
    rw [ascLevels, List.pairwise_cons]
    refine ⟨fun x hx => ?_, ih (s + 1)⟩
    have := ascLevels_mem_le (s + 1) m x hx
    omega

def divNames (ds : List Division) : List String :=
  ds.flatMap (fun d => d.teams.map Team.name)

theorem build_divisions_spec (theme : Theme) (custom : Option (List String)) (fuel : Nat) :
    ∀ (szs : List Int) (lvl : Nat) (used : List String) (r : Rng) (ds : List Division)
      (used' : List String) (r' : Rng),
      build_divisions theme custom fuel szs lvl used r = some (ds, used', r') →
      used' = (divNames ds).reverse ++ used ∧
        (divNames ds).Nodup ∧ (∀ x ∈ divNames ds, x ∉ used) ∧
        ds.map Division.level = ascLevels lvl szs.length ∧
        ∀ d ∈ ds, ∃ L : Nat, d.level = (L : Int) ∧ lvl ≤ L ∧
          d.name = division_name theme L custom := by
  intro szs
  induction szs with
  | nil =>
    intro lvl used r ds used' r' h
    obtain ⟨rfl, rfl, rfl⟩ : ds = [] ∧ used' = used ∧ r' = r := by
      simpa [build_divisions, eq_comm] using h
    simp [divNames, ascLevels]
  | cons sz rest ih =>
    intro lvl used r ds used' r' h
    unfold build_divisions at h
    split at h
    · exact absurd h (by simp)
    · next d used₁ r₁ hbd =>
      split at h
      · exact absurd h (by simp)
      · next ds₂ used₂ r₂ hbds =>
        obtain ⟨rfl, rfl, rfl⟩ : ds = d :: ds₂ ∧ used' = used₂ ∧ r' = r₂ := by
          simpa [eq_comm] using h
        obtain ⟨hlev, hname, hu₁, hnd₁, hnin₁⟩ := build_division_spec _ _ _ _ _ _ _ _ _ _ hbd
        subst hu₁
        obtain ⟨hu₂, hnd₂, hnin₂, hlevels, hnames⟩ := ih _ _ _ _ _ _ hbds
        have hdn : divNames (d :: ds₂) = d.teams.map Team.name ++ divNames ds₂ := by
          simp [divNames]
        refine ⟨?_, ?_, ?_, ?_, ?_⟩
        · rw [hu₂, hdn]
          simp [List.reverse_append, List.append_assoc]
        · rw [hdn, List.nodup_append]
          refine ⟨hnd₁, hnd₂, fun x hx hx₂ => ?_⟩
          exact hnin₂ _ hx₂ (List.mem_append_left _ (List.mem_reverse.2 hx))
        · intro x hx hxu
          rw [hdn, List.mem_append] at hx
          rcases hx with hx | hx
          · exact hnin₁ _ hx hxu
          · exact hnin₂ _ hx (List.mem_append_right _ hxu)
        · rw [List.map_cons, hlevels, hlev]
          rfl
        · intro d' hd'
          rcases List.mem_cons.1 hd' with rfl | hd'
          · exact ⟨lvl, hlev, le_refl _, hname⟩
          · obtain ⟨L, hL1, hL2, hL3⟩ := hnames d' hd'
            exact ⟨L, hL1, by omega, hL3⟩

theorem divNames_sorted_perm (ds : List Division) :
    List.Perm (divNames ((ds.insertionSort divisionLe).map Division.sortTeams)) (divNames ds) := by
  unfold divNames
  rw [List.flatMap_map]
  have h1 : List.Perm ((ds.insertionSort divisionLe).flatMap
      ((fun d => d.teams.map Team.name) ∘ Division.sortTeams))
      ((ds.insertionSort divisionLe).flatMap (fun d => d.teams.map Team.name)) := by
    apply List.Perm.flatMap_left
    intro d _
    exact (List.perm_insertionSort teamLe d.teams).map Team.name
  exact h1.trans ((List.perm_insertionSort divisionLe ds).flatMap_right _)

/-- C4: no two teams anywhere in a generated Pyramid, across all divisions,
share a name: the global used-name set threaded through generation makes the
full name list duplicate-free, and sorting only permutes it. -/
theorem claim_c4_unique_names (fuel : Nat) (ls : List Int) (th : String) (seed : Option Int)
    (title desc : Option String) (custom : Option (List String)) (extra : Option Dict)
    (ent : Nat) (now : Datetime) (p : Pyramid)
    (hp : generate_pyramid fuel ls th seed title desc custom extra ent now =
      Except.ok (some p)) :
    (pyramidTeamNames p).Nodup := by
  rcases hg : get_theme th with e | tm
  · unfold generate_pyramid at hp
    split at hp
    · simp at hp
    · rw [hg] at hp
      simp at hp
  · obtain ⟨-, -, -, -, ds, u, r, hbd, hdiv⟩ :=
      generate_ok_fields fuel ls th seed title desc custom extra ent now tm p hg hp
    obtain ⟨-, hnd, -, -, -⟩ := build_divisions_spec _ _ _ _ _ _ _ _ _ _ hbd
    have hperm := divNames_sorted_perm ds
    have : pyramidTeamNames p = divNames ((ds.insertionSort divisionLe).map Division.sortTeams) := by
      rw [pyramidTeamNames, hdiv]
      rfl
    rw [this]
    exact hnd.perm hperm.symm

theorem claim_c4_witness :
    (pyramidTeamNames ((genOk (generate_pyramid 30 [2, 2] "eorzea" (some 11) none none none
      none 0 wNow)).getD emptyPyramid)).Nodup :=
  claim_c4_unique_names 30 [2, 2] "eorzea" (some 11) none none none none 0 wNow _ (by rfl)

theorem sort_pairwise_invariants (q : Pyramid) :
    (Pyramid.sort q).divisions.Pairwise divisionLe ∧
      ∀ d ∈ (Pyramid.sort q).divisions, d.teams.Pairwise teamLe := by
  constructor
  · have hs : (q.divisions.insertionSort divisionLe).Pairwise divisionLe :=
      List.sorted_insertionSort divisionLe q.divisions
    exact hs.map Division.sortTeams (fun a b hab => hab)
  · intro d hd
    rw [Pyramid.sort] at hd
    simp only [List.mem_map] at hd
    obtain ⟨d₀, -, rfl⟩ := hd
    exact List.sorted_insertionSort teamLe d₀.teams

theorem pairwise_lt_of_le_nodup (l : List Division) (hle : l.Pairwise divisionLe)
    (hnd : (l.map Division.level).Nodup) :
    l.Pairwise (fun a b => a.level < b.level) := by
  induction l with
  | nil => simp
  | cons d l ih =>
    rw [List.pairwise_cons] at hle ⊢
    rw [List.map_cons, List.nodup_cons] at hnd
    refine ⟨fun d' hd' => lt_of_le_of_ne (hle.1 d' hd') fun heq => hnd.1 ?_, ih hle.2 hnd.2⟩
    exact heq ▸ List.mem_map_of_mem Division.level hd'

theorem dict_to_pyramid_sort (doc : PyramidDoc) (p : Pyramid)
    (h : dict_to_pyramid doc = Except.ok p) : ∃ q, p = Pyramid.sort q := by
  unfold dict_to_pyramid at h
  cases hm : (doc.divisions.getD []).mapM division_from_doc with
  | error e => rw [hm] at h; simp [Bind.bind, Except.bind] at h
  | ok divs =>
    rw [hm] at h
    cases hg : parseGeneratedAt doc.generated_at with
    | error e => rw [hg] at h; simp [Bind.bind, Except.bind] at h
    | ok gen =>
      rw [hg] at h
      simp only [Bind.bind, Except.bind, Except.ok.injEq] at h
      exact ⟨_, h.symm⟩

/-- C5 (amended): after generation the division levels are strictly
ascending and every division's teams are sorted by name; after
deserialization the divisions are sorted in non-decreasing level order
(strict only when the document's levels are distinct) and every division's
teams are sorted by name. -/
theorem claim_c5_invariants :
    (∀ (fuel : Nat) (ls : List Int) (th : String) (seed : Option Int)
      (title desc : Option String) (custom : Option (List String)) (extra : Option Dict)
      (ent : Nat) (now : Datetime) (p : Pyramid),
      generate_pyramid fuel ls th seed title desc custom extra ent now =
        Except.ok (some p) →
      p.divisions.Pairwise (fun a b => a.level < b.level) ∧
        ∀ d ∈ p.divisions, d.teams.Pairwise teamLe) ∧
    (∀ (doc : PyramidDoc) (p : Pyramid), dict_to_pyramid doc = Except.ok p →
      p.divisions.Pairwise divisionLe ∧ ∀ d ∈ p.divisions, d.teams.Pairwise teamLe) := by
  constructor
  · intro fuel ls th seed title desc custom extra ent now p hp
    rcases hg : get_theme th with e | tm
    · unfold generate_pyramid at hp
      split at hp
      · simp at hp
      · rw [hg] at hp
        simp at hp
    · obtain ⟨-, -, -, -, ds, u, r, hbd, hdiv⟩ :=
        generate_ok_fields fuel ls th seed title desc custom extra ent now tm p hg hp
      obtain ⟨-, -, -, hlevels, -⟩ := build_divisions_spec _ _ _ _ _ _ _ _ _ _ hbd
      have hsortp : p = Pyramid.sort
          { title := p.title, description := p.description, divisions := ds,
            meta := p.meta, generated_at := p.generated_at } := by
        cases p
        simp_all [Pyramid.sort]
      have hpair := sort_pairwise_invariants
        { title := p.title, description := p.description, divisions := ds,
          meta := p.meta, generated_at := p.generated_at }
      refine ⟨?_, ?_⟩
      · apply pairwise_lt_of_le_nodup _ (hsortp ▸ hpair.1)
        have hmm : p.divisions.map Division.level =
            (ds.insertionSort divisionLe).map Division.level := by
          rw [hdiv, List.map_map]
          exact List.map_congr_left fun a _ => rfl
        rw [hmm]
        have hperm : List.Perm ((ds.insertionSort divisionLe).map Division.level)
            (ds.map Division.level) := (List.perm_insertionSort divisionLe ds).map _
        have hnd : (ds.map Division.level).Nodup := by
          rw [hlevels]
          exact List.Pairwise.imp ne_of_lt (ascLevels_pairwise_lt 1 ls.length)
        exact hnd.perm hperm.symm
      · exact hsortp ▸ hpair.2
  · intro doc p hp
    obtain ⟨q, rfl⟩ := dict_to_pyramid_sort doc p hp
    exact sort_pairwise_invariants q

def dupLevelDoc : PyramidDoc :=
  { divisions := some
      [{ level := some 1, name := some "A", teams := some [] },
        { level := some 1, name := some "B", teams := some [] }] }

def extractOk : Except GenErr Pyramid → Pyramid
  | Except.ok p => p
  | Except.error _ => emptyPyramid

/-- C5 counterexample: a document with two level-1 divisions deserializes
successfully, but the resulting division levels are not strictly ascending
(the sort makes them only non-decreasing). -/
theorem claim_c5_counterexample :
    (dict_to_pyramid dupLevelDoc).isOk = true ∧
      ¬ (extractOk (dict_to_pyramid dupLevelDoc)).divisions.Pairwise
          (fun a b => a.level < b.level) := by
  constructor
  · rfl
  · decide

/-- C5 witness: a concretely generated pyramid has strictly ascending levels
and name-sorted teams, and a concretely deserialized document is
level-sorted with name-sorted teams. -/
theorem claim_c5_witness :
    (((genOk (generate_pyramid 30 [2, 1] "far_east" (some 3) none none none none 0
        wNow)).getD emptyPyramid).divisions.Pairwise (fun a b => a.level < b.level) ∧
      ∀ d ∈ ((genOk (generate_pyramid 30 [2, 1] "far_east" (some 3) none none none none 0
        wNow)).getD emptyPyramid).divisions, d.teams.Pairwise teamLe) ∧
    ((extractOk (dict_to_pyramid dupLevelDoc)).divisions.Pairwise divisionLe ∧
      ∀ d ∈ (extractOk (dict_to_pyramid dupLevelDoc)).divisions,
        d.teams.Pairwise teamLe) :=
  ⟨claim_c5_invariants.1 30 [2, 1] "far_east" (some 3) none none none none 0 wNow _ (by rfl),
    claim_c5_invariants.2 dupLevelDoc _ (by rfl)⟩

/-- A custom division name is supplied for 1-based position L exactly when
the custom list is truthy and reaches that position. -/
def customCovers (custom : Option (List String)) (L : Nat) : Prop :=
  ∃ c, custom = some c ∧ c ≠ [] ∧ L ≤ c.length

/-- C7: every division of a generated pyramid carries a 1-based level L; its
name is the custom name at position L verbatim when one was supplied, and
otherwise the theme's premier title at level 1, the championship title at
level 2, and "{region_name} {lower_division_title} {roman(L-2)}" at levels
3 and above. -/
theorem claim_c7_division_names (fuel : Nat) (ls : List Int) (th : String) (seed : Option Int)
    (title desc : Option String) (custom : Option (List String)) (extra : Option Dict)
    (ent : Nat) (now : Datetime) (tm : Theme) (p : Pyramid)
    (hth : get_theme th = Except.ok tm)
    (hp : generate_pyramid fuel ls th seed title desc custom extra ent now =
      Except.ok (some p)) :
    ∀ d ∈ p.divisions, ∃ L : Nat, 1 ≤ L ∧ d.level = (L : Int) ∧
      (∀ c, custom = some c → c ≠ [] → L ≤ c.length → d.name = c.getD (L - 1) "") ∧
      (¬ customCovers custom L →
        (L = 1 → d.name = tm.premier_title) ∧
        (L = 2 → d.name = tm.championship_title) ∧
        (3 ≤ L → d.name = tm.region_name ++ " " ++ tm.lower_division_title ++ " " ++
          roman (L - 2))) := by
  intro d hd
  obtain ⟨-, -, -, -, ds, u, r, hbd, hdiv⟩ :=
    generate_ok_fields fuel ls th seed title desc custom extra ent now tm p hth hp
  obtain ⟨-, -, -, -, hnames⟩ := build_divisions_spec _ _ _ _ _ _ _ _ _ _ hbd
  rw [hdiv] at hd
  simp only [List.mem_map] at hd
  obtain ⟨d₀, hd₀, rfl⟩ := hd
  obtain ⟨L, hL, h1L, hname⟩ := hnames d₀ ((List.mem_insertionSort divisionLe).1 hd₀)
  have hnm : (Division.sortTeams d₀).name = d₀.name := rfl
  refine ⟨L, h1L, hL, ?_, ?_⟩
  · intro c hc hcne hclen
    subst hc
    rw [hnm, hname, division_name, if_pos ⟨hcne, hclen⟩]
  · intro hncov
    have hdefault : division_name tm L custom =
        division_name.defaultDivisionName tm L := by
      cases custom with
      | none => rfl
      | some c =>
        rw [division_name, if_neg (fun hcon => hncov ⟨c, rfl, hcon.1, hcon.2⟩)]
    refine ⟨fun h1 => ?_, fun h2 => ?_, fun h3 => ?_⟩
    · rw [hnm, hname, hdefault, division_name.defaultDivisionName, if_pos h1]
    · rw [hnm, hname, hdefault, division_name.defaultDivisionName,
        if_neg (by omega), if_pos h2]
    · rw [hnm, hname, hdefault, division_name.defaultDivisionName,
        if_neg (by omega), if_neg (by omega)]

def emptyDivision : Division := { level := 0, name := "" }

def wPyrC7 : Pyramid :=
  (genOk (generate_pyramid 30 [1, 1, 1] "eorzea" (some 5) none none (some ["Top"]) none 0
    wNow)).getD emptyPyramid

/-- C7 witness: in a concrete three-level generation with one custom name,
the third division is named with the region, the lower-division title and
the Roman numeral I. -/
theorem claim_c7_witness :
    (wPyrC7.divisions.getD 2 emptyDivision).name = "Eorzean City-State Division I" := by
  obtain ⟨L, h1L, hLev, hcovered, hncov⟩ := claim_c7_division_names 30 [1, 1, 1] "eorzea"
    (some 5) none none (some ["Top"]) none 0 wNow eorzeaTheme wPyrC7 (by rfl) (by rfl)
    (wPyrC7.divisions.getD 2 emptyDivision) (by decide)
  have h3 : ((3 : Nat) : Int) = (L : Int) := hLev
  have hL3 : L = 3 := by omega
  subst hL3
  have hres := (hncov ?ncov).2.2 (by omega)
  case ncov =>
    rintro ⟨c, hc, -, hlen⟩
    cases Option.some.inj hc
    exact absurd hlen (by decide)
  exact hres

theorem dictFind_dictSet_self (d : Dict) (k : String) (v : Jval) :
    dictFind (dictSet d k v) k = some v := by
  induction d with
  | nil => simp [dictSet, dictFind]
  | cons p rest ih =>
    obtain ⟨k', v'⟩ := p
    rw [dictSet]
    split
    · next hk => simp [dictFind]
    · next hk => simp [dictFind, hk, ih]

theorem dictFind_dictSet_other (d : Dict) (k k' : String) (v : Jval) (h : k' ≠ k) :
    dictFind (dictSet d k v) k' = dictFind d k' := by
  induction d with
  | nil => simp [dictSet, dictFind, Ne.symm h]
  | cons p rest ih =>
    obtain ⟨k₁, v₁⟩ := p
    rw [dictSet]
    split
    · next hk =>
      subst hk
      simp [dictFind, Ne.symm h]
    · next hk => simp [dictFind, ih]

theorem dictFind_dictUpdate_not_mem (d e : Dict) (k : String) (h : k ∉ dictKeys e) :
    dictFind (dictUpdate d e) k = dictFind d k := by
  induction e generalizing d with
  | nil => rfl
  | cons p e ih =>
    obtain ⟨k₁, v₁⟩ := p
    rw [dictUpdate]
    rw [dictKeys, List.map_cons, List.mem_cons] at h
    push_neg at h
    rw [ih _ (by simpa [dictKeys] using h.2)]
    exact dictFind_dictSet_other d k₁ k v₁ h.1

theorem dictFind_dictUpdate_mem (d e : Dict) (k : String) (v : Jval)
    (hnd : (dictKeys e).Nodup) (h : dictFind e k = some v) :
    dictFind (dictUpdate d e) k = some v := by
  induction e generalizing d with
  | nil => simp [dictFind] at h
  | cons p e ih =>
    obtain ⟨k₁, v₁⟩ := p
    rw [dictKeys, List.map_cons, List.nodup_cons] at hnd
    rw [dictUpdate]
    rw [dictFind] at h
    split at h
    · next hk =>
      subst hk
      obtain rfl : v₁ = v := by simpa using h
      rw [dictFind_dictUpdate_not_mem _ _ _ (by simpa [dictKeys] using hnd.1)]
      exact dictFind_dictSet_self d _ _
    · next hk => exact ih _ hnd.2 h

theorem metaBase_find_theme (tm : Theme) (seed : Option Int) (ls : List Int)
    (custom : Option (List String)) :
    dictFind (metaBase tm seed ls custom) "theme" =
      some (Jval.str tm.key) := by
  rcases custom with - | c
  · rfl
  · show dictFind (if c ≠ [] then
        metaBaseCore tm seed ls ++ [("custom_division_names", Jval.strList c)]
      else metaBaseCore tm seed ls) "theme" = _
    by_cases hc : c = []
    · subst hc
      rfl
    · rw [if_pos hc]
      rfl

theorem metaBase_find_seed (tm : Theme) (seed : Option Int) (ls : List Int)
    (custom : Option (List String)) :
    dictFind (metaBase tm seed ls custom) "seed" =
      some (match seed with | some s => Jval.int s | none => Jval.null) := by
  rcases custom with - | c
  · rfl
  · show dictFind (if c ≠ [] then
        metaBaseCore tm seed ls ++ [("custom_division_names", Jval.strList c)]
      else metaBaseCore tm seed ls) "seed" = _
    by_cases hc : c = []
    · subst hc
      rfl
    · rw [if_pos hc]
      rfl

theorem metaBase_find_levels (tm : Theme) (seed : Option Int) (ls : List Int)
    (custom : Option (List String)) :
    dictFind (metaBase tm seed ls custom) "levels" =
      some (Jval.intList ls) := by
  rcases custom with - | c
  · rfl
  · show dictFind (if c ≠ [] then
        metaBaseCore tm seed ls ++ [("custom_division_names", Jval.strList c)]
      else metaBaseCore tm seed ls) "levels" = _
    by_cases hc : c = []
    · subst hc
      rfl
    · rw [if_pos hc]
      rfl

theorem metaBase_find_shortPrefix (tm : Theme) (seed : Option Int) (ls : List Int)
    (custom : Option (List String)) :
    dictFind (metaBase tm seed ls custom) "short_prefix" =
      some (Jval.str tm.shortPrefix) := by
  rcases custom with - | c
  · rfl
  · show dictFind (if c ≠ [] then
        metaBaseCore tm seed ls ++ [("custom_division_names", Jval.strList c)]
      else metaBaseCore tm seed ls) "short_prefix" = _
    by_cases hc : c = []
    · subst hc
      rfl
    · rw [if_pos hc]
      rfl

theorem metaBase_find_generated_using (tm : Theme) (seed : Option Int) (ls : List Int)
    (custom : Option (List String)) :
    dictFind (metaBase tm seed ls custom) "generated_using" =
      some (Jval.str "ffxiv_pyramid") := by
  rcases custom with - | c
  · rfl
  · show dictFind (if c ≠ [] then
        metaBaseCore tm seed ls ++ [("custom_division_names", Jval.strList c)]
      else metaBaseCore tm seed ls) "generated_using" = _
    by_cases hc : c = []
    · subst hc
      rfl
    · rw [if_pos hc]
      rfl

theorem metaBase_find_custom (tm : Theme) (seed : Option Int) (ls : List Int)
    (custom : Option (List String)) :
    dictFind (metaBase tm seed ls custom) "custom_division_names" =
      match custom with
      | some c => if c ≠ [] then some (Jval.strList c) else none
      | none => none := by
  rcases custom with - | c
  · rfl
  · show dictFind (if c ≠ [] then
        metaBaseCore tm seed ls ++ [("custom_division_names", Jval.strList c)]
      else metaBaseCore tm seed ls) "custom_division_names" =
      if c ≠ [] then some (Jval.strList c) else none
    by_cases hc : c = []
    · subst hc
      rfl
    · rw [if_pos hc, if_pos hc]
      rfl

theorem metaFor_find_not_mem (tm : Theme) (seed : Option Int) (ls : List Int)
    (custom : Option (List String)) (extra : Option Dict) (k : String)
    (h : k ∉ dictKeys (extra.getD [])) :
    dictFind (metaFor tm seed ls custom extra) k =
      dictFind (metaBase tm seed ls custom) k := by
  rcases extra with - | e
  · rfl
  · show dictFind (if e ≠ [] then dictUpdate (metaBase tm seed ls custom) e
      else metaBase tm seed ls custom) k = _
    by_cases he : e = []
    · subst he
      rfl
    · rw [if_pos he]
      exact dictFind_dictUpdate_not_mem _ _ _ h

/-- C9: the meta mapping of a generated pyramid holds the theme key, the
seed (null when absent), the literal level sizes, the theme's short prefix
and the fixed provenance tag; the custom division names appear exactly when
a non-empty list was supplied; and every key of extra_meta is present with
extra_meta's value, overriding the previous entries on conflict. -/
theorem claim_c9_meta (fuel : Nat) (ls : List Int) (th : String) (seed : Option Int)
    (title desc : Option String) (custom : Option (List String)) (extra : Option Dict)
    (ent : Nat) (now : Datetime) (tm : Theme) (p : Pyramid)
    (hth : get_theme th = Except.ok tm)
    (hp : generate_pyramid fuel ls th seed title desc custom extra ent now =
      Except.ok (some p))
    (hnd : (dictKeys (extra.getD [])).Nodup) :
    (∀ k v, dictFind (extra.getD []) k = some v → dictFind p.meta k = some v) ∧
      ("theme" ∉ dictKeys (extra.getD []) →
        dictFind p.meta "theme" = some (Jval.str tm.key)) ∧
      ("seed" ∉ dictKeys (extra.getD []) →
        dictFind p.meta "seed" =
          some (match seed with | some s => Jval.int s | none => Jval.null)) ∧
      ("levels" ∉ dictKeys (extra.getD []) →
        dictFind p.meta "levels" = some (Jval.intList ls)) ∧
      ("short_prefix" ∉ dictKeys (extra.getD []) →
        dictFind p.meta "short_prefix" = some (Jval.str tm.shortPrefix)) ∧
      ("generated_using" ∉ dictKeys (extra.getD []) →
        dictFind p.meta "generated_using" = some (Jval.str "ffxiv_pyramid")) ∧
      ("custom_division_names" ∉ dictKeys (extra.getD []) →
        dictFind p.meta "custom_division_names" =
          match custom with
          | some c => if c ≠ [] then some (Jval.strList c) else none
          | none => none) := by
  have hmeta : p.meta = metaFor tm seed ls custom extra :=
    (generate_ok_fields fuel ls th seed title desc custom extra ent now tm p hth hp).2.2.1
  rw [hmeta]
  refine ⟨?_, fun hm => ?_, fun hm => ?_, fun hm => ?_, fun hm => ?_, fun hm => ?_,
    fun hm => ?_⟩
  · intro k v hk
    rcases extra with - | e
    · simp [dictFind] at hk
    · have he : e ≠ [] := by
        rintro rfl
        simp [dictFind] at hk
      show dictFind (if e ≠ [] then dictUpdate (metaBase tm seed ls custom) e
        else metaBase tm seed ls custom) k = some v
      rw [if_pos he]
      exact dictFind_dictUpdate_mem _ _ _ _ hnd hk
  · rw [metaFor_find_not_mem _ _ _ _ _ _ hm, metaBase_find_theme]
  · rw [metaFor_find_not_mem _ _ _ _ _ _ hm, metaBase_find_seed]
    rcases seed with - | s <;> rfl
  · rw [metaFor_find_not_mem _ _ _ _ _ _ hm, metaBase_find_levels]
  · rw [metaFor_find_not_mem _ _ _ _ _ _ hm, metaBase_find_shortPrefix]
  · rw [metaFor_find_not_mem _ _ _ _ _ _ hm, metaBase_find_generated_using]
  · rw [metaFor_find_not_mem _ _ _ _ _ _ hm, metaBase_find_custom]
    rcases custom with - | c <;> rfl

def wExtra : Dict := [("generated_using", Jval.str "resample"), ("note", Jval.int 1)]

def wPyrC9 : Pyramid :=
  (genOk (generate_pyramid 30 [1] "eorzea" (some 4) none none (some ["X"]) (some wExtra) 0
    wNow)).getD emptyPyramid

/-- C9 witness: a concrete generation with custom division names and an
extra_meta that both adds a key and overrides the provenance tag. -/
theorem claim_c9_witness :
    dictFind wPyrC9.meta "note" = some (Jval.int 1) ∧
      dictFind wPyrC9.meta "generated_using" = some (Jval.str "resample") ∧
      dictFind wPyrC9.meta "theme" = some (Jval.str "eorzea") ∧
      dictFind wPyrC9.meta "custom_division_names" = some (Jval.strList ["X"]) := by
  have h := claim_c9_meta 30 [1] "eorzea" (some 4) none none (some ["X"]) (some wExtra) 0
    wNow eorzeaTheme wPyrC9 (by rfl) (by rfl) (by decide)
  exact ⟨h.1 "note" _ (by rfl), h.1 "generated_using" _ (by rfl),
    h.2.1 (by decide), h.2.2.2.2.2.2 (by decide)⟩

end EFL
